import Mathlib

set_option linter.unusedVariables false

/- Shallow embedding of skorch's scoring callbacks
(src/skorch/callbacks/scoring.py) and of the utilities in
src/skorch/utils.py.  Python exceptions are modelled by an explicit error
type, numpy floats by rationals, and np.inf / -np.inf by an extended score
type. -/

inductive PyErr where
  | keyError
  | typeError
  | indexError
  | attributeError
  | otherError
deriving DecidableEq

/- Extended scores: finite float values together with numpy's np.inf and
-np.inf, the possible values of ScoringBase.best_score_. -/
inductive EScore where
  | ninf
  | fin (q : ℚ)
  | pinf
deriving DecidableEq

/- Float strict comparison restricted to the extended scores
(inf < inf is false, as for IEEE floats). -/
def EScore.blt : EScore → EScore → Bool
  | .ninf, .ninf => false
  | .ninf, _ => true
  | .fin _, .ninf => false
  | .fin a, .fin b => decide (a < b)
  | .fin _, .pinf => true
  | .pinf, _ => false

def EScore.ble : EScore → EScore → Bool
  | .ninf, _ => true
  | .fin _, .ninf => false
  | .fin a, .fin b => decide (a ≤ b)
  | .fin _, .pinf => true
  | .pinf, .pinf => true
  | .pinf, _ => false

/- ------------------------------------------------------------------ -/
/- The history log.                                                    -/
/- ------------------------------------------------------------------ -/

structure BatchRecord where
  entries : List (String × ℚ)
deriving DecidableEq

inductive HVal where
  | num (q : ℚ)
  | flag (b : Bool)
deriving DecidableEq

structure EpochRecord where
  entries : List (String × HVal)
  batches : List BatchRecord
deriving DecidableEq

structure History where
  epochs : List EpochRecord
deriving DecidableEq

def listModifyLast {α : Type} (f : α → α) : List α → List α
  | [] => []
  | [a] => [f a]
  | a :: b :: rest => a :: listModifyLast f (b :: rest)

/-- Modelled from the spec: the History class itself is not among the provided
sources.  The spec describes it as an append-only ordered sequence of epoch
records, each holding a mapping of metric name to value plus a nested
sequence of per-batch records, addressed by relative epoch index and metric
name.  `record` appends a (name, value) entry to the current (last) epoch
record. -/
def History.record (h : History) (k : String) (v : HVal) : History :=
  ⟨listModifyLast (fun ep => { ep with entries := ep.entries ++ [(k, v)] }) h.epochs⟩

/-- Modelled from the spec: `record_batch` appends a (name, value) entry to the
current (last) batch record of the current epoch. -/
def History.record_batch (h : History) (k : String) (v : ℚ) : History :=
  ⟨listModifyLast (fun ep =>
    { ep with batches :=
        listModifyLast (fun b => ⟨b.entries ++ [(k, v)]⟩) ep.batches }) h.epochs⟩

def BatchRecord.find (b : BatchRecord) (k : String) : Option ℚ :=
  (b.entries.find? (fun p => decide (p.1 = k))).map (fun p => p.2)

def History.lastBatches (h : History) : List BatchRecord :=
  match h.epochs.getLast? with
  | none => []
  | some ep => ep.batches

/-- Modelled from the spec: the slice query history[-1, 'batches', :, key]
yields the values recorded under `key` across the current epoch's batches;
it raises KeyError when the key was never recorded this epoch ("metric was
never applicable this epoch" in the spec's words), and IndexError when no
epoch record exists at all. -/
def History.lastBatchVals (h : History) (k : String) : Except PyErr (List ℚ) :=
  match h.epochs.getLast? with
  | none => .error .indexError
  | some ep =>
    match ep.batches.filterMap (fun b => b.find k) with
    | [] => .error .keyError
    | v :: vs => .ok (v :: vs)

/- Whether the current (last) epoch record holds an entry (k, v). -/
def History.lastHas (h : History) (k : String) (v : HVal) : Bool :=
  match h.epochs.getLast? with
  | none => false
  | some ep => ep.entries.any (fun p => decide (p = (k, v)))

/- Number of entries recorded under key `k` across all epoch records. -/
def History.countKey (h : History) (k : String) : Nat :=
  (h.epochs.map (fun ep => (ep.entries.filter (fun p => decide (p.1 = k))).length)).sum

/- ------------------------------------------------------------------ -/
/- ScoringBase.                                                        -/
/- ------------------------------------------------------------------ -/

structure ScoringState where
  lower_is_better : Option Bool
  on_train : Bool
  name_ : String
  best_score_ : EScore
deriving DecidableEq

/- ScoringBase.initialize: best_score_ = np.inf if lower_is_better else
-np.inf (Python truthiness: None and False both take the -np.inf branch);
name_ is the resolved name from _get_name. -/
def initScoring (lower_is_better : Option Bool) (on_train : Bool)
    (name : String) : ScoringState :=
  { lower_is_better := lower_is_better
    on_train := on_train
    name_ := name
    best_score_ := if lower_is_better = some true then .pinf else .ninf }

/- ScoringBase._is_best_score: None if lower_is_better is None; otherwise
current_score < best_score_ resp. current_score > best_score_. -/
def ScoringState.is_best_score (cb : ScoringState) (current_score : ℚ) :
    Option Bool :=
  match cb.lower_is_better with
  | none => none
  | some true => some (EScore.blt (.fin current_score) cb.best_score_)
  | some false => some (EScore.blt cb.best_score_ (.fin current_score))

/- ------------------------------------------------------------------ -/
/- BatchScoring.                                                       -/
/- ------------------------------------------------------------------ -/

/- numpy.average (external library): sum(s*w)/sum(w); a zero total weight
raises ZeroDivisionError, folded into otherError here. -/
def npAverage (scores weights : List ℚ) : Except PyErr ℚ :=
  let tw := weights.sum
  if tw = 0 then .error .otherError
  else .ok ((List.zipWith (fun s w => s * w) scores weights).sum / tw)

/- BatchScoring.get_avg_score: zip the per-batch (batch-size, score) pairs of
the current epoch and take their numpy weighted average. -/
def BatchScoring.get_avg_score (cb : ScoringState) (h : History) :
    Except PyErr ℚ :=
  let bs_key := if cb.on_train then "train_batch_size" else "valid_batch_size"
  let pairs := h.lastBatches.filterMap (fun b =>
    match b.find bs_key, b.find cb.name_ with
    | some w, some s => some (w, s)
    | _, _ => none)
  npAverage (pairs.map (fun p => p.2)) (pairs.map (fun p => p.1))

/- BatchScoring.on_batch_end.  The external scorer call
self._scoring(net, X, y) (sklearn's check_scoring/_score) is abstracted by
its outcome `scorer_result`.  The try block wraps the scorer call and the
record_batch call and catches exactly KeyError. -/
def BatchScoring.on_batch_end (cb : ScoringState) (h : History)
    (training : Bool) (scorer_result : Except PyErr ℚ) :
    Except PyErr History :=
  if training ≠ cb.on_train then .ok h
  else
    match scorer_result with
    | .ok score => .ok (h.record_batch cb.name_ score)
    | .error .keyError => .ok h
    | .error e => .error e

/- BatchScoring.on_epoch_end: probe history[-1, 'batches', :, name_]
(returning on KeyError), average the batch scores, update best_score_ when
the average is a new best, record the average, and record the "<name>_best"
flag unless _is_best_score returned None. -/
def BatchScoring.on_epoch_end (cb : ScoringState) (h : History) :
    Except PyErr (ScoringState × History) :=
  match h.lastBatchVals cb.name_ with
  | .error .keyError => .ok (cb, h)
  | .error e => .error e
  | .ok _ =>
    match BatchScoring.get_avg_score cb h with
    | .error e => .error e
    | .ok score_avg =>
      let is_best := cb.is_best_score score_avg
      let cb' := if is_best = some true
        then { cb with best_score_ := .fin score_avg } else cb
      let h' := h.record cb.name_ (.num score_avg)
      match is_best with
      | some b => .ok (cb', h'.record (cb.name_ ++ "_best") (.flag b))
      | none => .ok (cb', h')

/- ------------------------------------------------------------------ -/
/- EpochScoring.                                                       -/
/- ------------------------------------------------------------------ -/

/-- Modelled from the spec: a dataset either exposes separable input/target
views (X, y) or not; y may itself be None even when the views exist.  The
payloads are opaque handles here (they are only passed to the external
scorer). -/
structure Dataset where
  xy : Option (Option Nat × Option Nat)
deriving DecidableEq

/-- Modelled from the spec: skorch.utils.data_from_dataset is imported by
scoring.py but is not among the provided sources.  Per the spec it extracts
a flat (inputs, targets) pair from dataset objects exposing separable
input/target views and fails with AttributeError otherwise ("dataset
lacking separable input/target views"). -/
def data_from_dataset (d : Dataset) : Except PyErr (Option Nat × Option Nat) :=
  match d.xy with
  | some p => .ok p
  | none => .error .attributeError

structure EpochEndResult where
  cb : ScoringState
  hist : History
  warned : Bool
deriving DecidableEq

/- EpochScoring.on_epoch_end.  The external scorer call
self._scoring(net, X_test, y_test) is abstracted by its value
`scorer_value`; `warned` records whether warnings.warn was called.  The
try block around data_from_dataset catches exactly AttributeError. -/
def EpochScoring.on_epoch_end (cb : ScoringState) (h : History)
    (dataset_train dataset_valid : Dataset) (scorer_value : ℚ) :
    Except PyErr EpochEndResult :=
  let dataset := if cb.on_train then dataset_train else dataset_valid
  match data_from_dataset dataset with
  | .error .attributeError =>
    -- except AttributeError: X_test, y_test = None, None; warnings.warn(...)
    -- and then `if X_test is None: return`
    .ok ⟨cb, h, true⟩
  | .error e => .error e
  | .ok (X_test, _y_test) =>
    match X_test with
    | none => .ok ⟨cb, h, false⟩
    | some _ =>
      let h' := h.record cb.name_ (.num scorer_value)
      match cb.is_best_score scorer_value with
      | none => .ok ⟨cb, h', false⟩
      | some b =>
        let h'' := h'.record (cb.name_ ++ "_best") (.flag b)
        .ok ⟨if b then { cb with best_score_ := .fin scorer_value } else cb,
             h'', false⟩

/- ------------------------------------------------------------------ -/
/- Sequences of epoch-end events.                                      -/
/- ------------------------------------------------------------------ -/

def BatchScoring.runEpochs : ScoringState → List History → ScoringState
  | cb, [] => cb
  | cb, h :: t =>
    BatchScoring.runEpochs
      (match BatchScoring.on_epoch_end cb h with
       | .ok p => p.1
       | .error _ => cb) t

structure EpochEv where
  hist : History
  dtrain : Dataset
  dvalid : Dataset
  score : ℚ
deriving DecidableEq

def EpochScoring.runEpochs : ScoringState → List EpochEv → ScoringState
  | cb, [] => cb
  | cb, ev :: t =>
    EpochScoring.runEpochs
      (match EpochScoring.on_epoch_end cb ev.hist ev.dtrain ev.dvalid ev.score with
       | .ok r => r.cb
       | .error _ => cb) t

/- ------------------------------------------------------------------ -/
/- skorch.utils.to_tensor.                                             -/
/- ------------------------------------------------------------------ -/

/- The Python values to_tensor handles: Variables and PackedSequences
(opaque, returned untouched), numpy arrays, torch tensors (with a device
flag set by .cuda()), lists, tuples, dicts, numeric scalars, and anything
else (which hits the TypeError branch). -/
inductive PyVal where
  | pyscalar (q : ℚ)
  | npArray (d : List ℚ)
  | tensor (d : List ℚ) (onCuda : Bool)
  | pyvar (id : Nat)
  | packed (id : Nat)
  | pylist (xs : List PyVal)
  | pytuple (xs : List PyVal)
  | pydict (es : List (String × PyVal))
  | other (id : Nat)

/- skorch.utils.to_tensor.  Branches in source order: Variable /
PackedSequence returned as-is; dict and list/tuple recurse (a tuple becomes
a list); numpy arrays go through torch.from_numpy; scalars through
torch.from_numpy(np.array([X])); anything that is not a torch data type by
then raises TypeError; finally .cuda() when use_cuda. -/
mutual

def to_tensor (use_cuda : Bool) : PyVal → Except PyErr PyVal
  | .pyvar i => .ok (.pyvar i)
  | .packed i => .ok (.packed i)
  | .pydict es =>
    match to_tensorEntries use_cuda es with
    | .ok es' => .ok (.pydict es')
    | .error e => .error e
  | .pylist xs =>
    match to_tensorList use_cuda xs with
    | .ok ys => .ok (.pylist ys)
    | .error e => .error e
  | .pytuple xs =>
    match to_tensorList use_cuda xs with
    | .ok ys => .ok (.pylist ys)
    | .error e => .error e
  | .npArray d => .ok (.tensor d use_cuda)
  | .tensor d c => .ok (.tensor d (c || use_cuda))
  | .pyscalar q => .ok (.tensor [q] use_cuda)
  | .other _ => .error .typeError

def to_tensorList (use_cuda : Bool) : List PyVal → Except PyErr (List PyVal)
  | [] => .ok []
  | x :: xs =>
    match to_tensor use_cuda x with
    | .error e => .error e
    | .ok y =>
      match to_tensorList use_cuda xs with
      | .error e => .error e
      | .ok ys => .ok (y :: ys)

def to_tensorEntries (use_cuda : Bool) :
    List (String × PyVal) → Except PyErr (List (String × PyVal))
  | [] => .ok []
  | (k, v) :: rest =>
    match to_tensor use_cuda v with
    | .error e => .error e
    | .ok w =>
      match to_tensorEntries use_cuda rest with
      | .error e => .error e
      | .ok ws => .ok ((k, w) :: ws)

end

/- Values that to_tensor maps to themselves: its possible outputs. -/
mutual

def isConv (c : Bool) : PyVal → Bool
  | .pyvar _ => true
  | .packed _ => true
  | .tensor _ cu => !c || cu
  | .pylist xs => isConvList c xs
  | .pydict es => isConvEntries c es
  | _ => false

def isConvList (c : Bool) : List PyVal → Bool
  | [] => true
  | x :: xs => isConv c x && isConvList c xs

def isConvEntries (c : Bool) : List (String × PyVal) → Bool
  | [] => true
  | (_, v) :: rest => isConv c v && isConvEntries c rest

end

/- ------------------------------------------------------------------ -/
/- skorch.utils.multi_indexing.                                        -/
/- ------------------------------------------------------------------ -/

/- The data multi_indexing handles in this embedding: numpy 1-d arrays,
plain scalars, dictionaries and lists of containers.  (pandas NDFrames and
torch tensors behave like arrays for the indexing paths exercised here and
are not modelled separately.) -/
inductive PyData where
  | num (q : ℚ)
  | npArr (xs : List ℚ)
  | plist (xs : List PyData)
  | pdict (es : List (String × PyData))

/- The numpy dtype of an index array, as tested by `i.dtype == bool` /
`i.dtype == int`. -/
inductive NpDtype where
  | int
  | bool
  | float
  | str
deriving DecidableEq

/- The index argument `i`: an integer, a slice, or a numpy index array. -/
inductive Ix where
  | int (i : Int)
  | slice (a b : Option Int)
  | array (dtype : NpDtype) (vals : List Int)
deriving DecidableEq

/- The index after the ndarray preprocessing at the top of multi_indexing:
a bool array becomes the tuple-of-lists result of i.nonzero(), an int array
becomes its .tolist(). -/
inductive IxP where
  | int (i : Int)
  | slice (a b : Option Int)
  | intList (js : List Int)
  | nzTuple (js : List Nat)
deriving DecidableEq

/- The `isinstance(i, np.ndarray)` preprocessing of multi_indexing: bool
dtype -> tuple(j.tolist() for j in i.nonzero()); int dtype -> i.tolist();
any other dtype -> IndexError("arrays used as indices must be of integer
(or boolean) type"). -/
def preprocessIx : Ix → Except PyErr IxP
  | .int i => .ok (.int i)
  | .slice a b => .ok (.slice a b)
  | .array dt vs =>
    match dt with
    | .bool => .ok (.nzTuple ((vs.enum.filterMap
        (fun p => if p.2 ≠ 0 then some p.1 else none))))
    | .int => .ok (.intList vs)
    | _ => .error .indexError

/- Python sequence indexing s[i] with negative-index support; out of range
gives none (an IndexError at the call sites). -/
def pyListGet {α : Type} (xs : List α) (i : Int) : Option α :=
  let j := if i < 0 then i + xs.length else i
  if j < 0 then none else xs.get? j.toNat

/- Python slice s[a:b] (step 1): negative bounds count from the end, bounds
are clamped to [0, len(s)]. -/
def normIdx (n : Nat) (v : Int) : Nat :=
  (max 0 (min (if v < 0 then v + n else v) (n : Int))).toNat

def pySlice {α : Type} (xs : List α) (a b : Option Int) : List α :=
  let n := xs.length
  let s := match a with | none => 0 | some v => normIdx n v
  let e := match b with | none => n | some v => normIdx n v
  (xs.drop s).take (e - s)

/- Plain Python/numpy __getitem__ `v[i]`, as used by the dictionary branch
of multi_indexing and by its `data[i]` fallthrough.  Indexing a scalar is a
TypeError; list[list-of-ints] is a TypeError (lists support only int and
slice); dict[...] fails since our dict keys are strings. -/
def PyData.getitem : PyData → IxP → Except PyErr PyData
  | .plist xs, .int i =>
    match pyListGet xs i with
    | some v => .ok v
    | none => .error .indexError
  | .plist xs, .slice a b => .ok (.plist (pySlice xs a b))
  | .plist _, .intList _ => .error .typeError
  | .plist _, .nzTuple _ => .error .typeError
  | .npArr xs, .int i =>
    match pyListGet xs i with
    | some v => .ok (.num v)
    | none => .error .indexError
  | .npArr xs, .slice a b => .ok (.npArr (pySlice xs a b))
  | .npArr xs, .intList js =>
    match js.mapM (fun j => pyListGet xs j) with
    | some vs => .ok (.npArr vs)
    | none => .error .indexError
  | .npArr xs, .nzTuple js => .ok (.npArr (js.filterMap (fun j => xs.get? j)))
  | .num _, _ => .error .typeError
  | .pdict _, .int _ => .error .keyError
  | .pdict _, _ => .error .typeError

/- sklearn.utils.safe_indexing (external library), modelled by its
documented behaviour on the container kinds embedded here: positional fancy
indexing along the first axis. -/
def safe_indexing : PyData → IxP → Except PyErr PyData
  | .npArr xs, .intList js =>
    match js.mapM (fun j => pyListGet xs j) with
    | some vs => .ok (.npArr vs)
    | none => .error .indexError
  | .npArr xs, .nzTuple js => .ok (.npArr (js.filterMap (fun j => xs.get? j)))
  | .plist xs, .intList js =>
    match js.mapM (fun j => pyListGet xs j) with
    | some vs => .ok (.plist vs)
    | none => .error .indexError
  | .plist xs, .nzTuple js => .ok (.plist (js.filterMap (fun j => xs.get? j)))
  | _, _ => .error .typeError

/- The dictionary branch `{k: v[i] for k, v in data.items()}`; the first
failing item aborts the comprehension. -/
def dictIndex : List (String × PyData) → IxP → Except PyErr (List (String × PyData))
  | [], _ => .ok []
  | (k, v) :: rest, i =>
    match v.getitem i with
    | .error e => .error e
    | .ok w =>
      match dictIndex rest i with
      | .error e => .error e
      | .ok ws => .ok ((k, w) :: ws)

/- multi_indexing after the index preprocessing.  Branches in source order:
dict comprehension; list/tuple recursion inside try/except TypeError with
fallthrough; (pandas branch not modelled, see PyData); `data[i]` for int or
slice indices; safe_indexing otherwise. -/
mutual

def multi_indexing_pre : PyData → IxP → Except PyErr PyData
  | .pdict es, i =>
    match dictIndex es i with
    | .ok es' => .ok (.pdict es')
    | .error e => .error e
  | .plist xs, i =>
    match multiList xs i with
    | .ok ys => .ok (.plist ys)
    | .error .typeError =>
      -- except TypeError: pass, then fall through to data[i] / safe_indexing
      match i with
      | .int n => PyData.getitem (.plist xs) (.int n)
      | .slice a b => .ok (.plist (pySlice xs a b))
      | _ => safe_indexing (.plist xs) i
    | .error e => .error e
  | .num q, i =>
    match i with
    | .int n => PyData.getitem (.num q) (.int n)
    | .slice a b => PyData.getitem (.num q) (.slice a b)
    | _ => safe_indexing (.num q) i
  | .npArr xs, i =>
    match i with
    | .int n => PyData.getitem (.npArr xs) (.int n)
    | .slice a b => PyData.getitem (.npArr xs) (.slice a b)
    | _ => safe_indexing (.npArr xs) i

def multiList : List PyData → IxP → Except PyErr (List PyData)
  | [], _ => .ok []
  | x :: xs, i =>
    match multi_indexing_pre x i with
    | .error e => .error e
    | .ok y =>
      match multiList xs i with
      | .error e => .error e
      | .ok ys => .ok (y :: ys)

end

/- skorch.utils.multi_indexing: preprocess numpy index arrays, then
dispatch on the data. -/
def multi_indexing (data : PyData) (i : Ix) : Except PyErr PyData :=
  match preprocessIx i with
  | .error e => .error e
  | .ok j => multi_indexing_pre data j

/- ------------------------------------------------------------------ -/
/- skorch.utils.flatten and duplicate_items.                           -/
/- ------------------------------------------------------------------ -/

/- General Python objects as seen by flatten / duplicate_items: hashable
leaves (ints and strings here) and the three container kinds flatten
recurses into.  Iterating a dict yields its keys. -/
inductive PyObj where
  | intv (n : Int)
  | strv (s : String)
  | listv (xs : List PyObj)
  | tuplev (xs : List PyObj)
  | dictv (es : List (PyObj × PyObj))

/- Python `==` on these objects (only ever applied to the leaves flatten
yields, but total). -/
mutual

def pyObjBeq : PyObj → PyObj → Bool
  | .intv a, .intv b => decide (a = b)
  | .strv a, .strv b => decide (a = b)
  | .listv xs, .listv ys => pyObjListBeq xs ys
  | .tuplev xs, .tuplev ys => pyObjListBeq xs ys
  | .dictv es, .dictv fs => pyObjEntriesBeq es fs
  | _, _ => false

def pyObjListBeq : List PyObj → List PyObj → Bool
  | [], [] => true
  | x :: xs, y :: ys => pyObjBeq x y && pyObjListBeq xs ys
  | _, _ => false

def pyObjEntriesBeq : List (PyObj × PyObj) → List (PyObj × PyObj) → Bool
  | [], [] => true
  | (k, v) :: es, (l, w) :: fs =>
    pyObjBeq k l && pyObjBeq v w && pyObjEntriesBeq es fs
  | _, _ => false

end

/- skorch.utils.flatten: yield the items of `arr`, recursing into tuples,
lists and dicts (iterating a dict yields its keys, so the values never
surface). -/
mutual

def flatten : List PyObj → List PyObj
  | [] => []
  | x :: rest => flattenItem x ++ flatten rest

def flattenItem : PyObj → List PyObj
  | .listv xs => flatten xs
  | .tuplev xs => flatten xs
  | .dictv es => flattenKeys es
  | .intv n => [.intv n]
  | .strv s => [.strv s]

def flattenKeys : List (PyObj × PyObj) → List PyObj
  | [] => []
  | (k, _) :: rest => flattenItem k ++ flattenKeys rest

end

/- skorch.utils.duplicate_items: walk the flattened items, keeping a `seen`
set and collecting into a `duplicates` set; both sets are modelled as
duplicate-free lists in first-insertion order. -/
def dupAux : List PyObj → List PyObj → List PyObj → List PyObj
  | [], _, dups => dups
  | x :: rest, seen, dups =>
    if seen.any (pyObjBeq x) then
      dupAux rest seen (if dups.any (pyObjBeq x) then dups else dups ++ [x])
    else
      dupAux rest (seen ++ [x]) dups

def duplicate_items (collections : List PyObj) : List PyObj :=
  dupAux (flatten collections) [] []

/- ------------------------------------------------------------------ -/
/- Helper lemmas.                                                      -/
/- ------------------------------------------------------------------ -/

theorem EScore.ble_refl (a : EScore) : EScore.ble a a = true := by
  cases a <;> simp [EScore.ble]

theorem EScore.ble_of_blt {a b : EScore} (h : EScore.blt a b = true) :
    EScore.ble a b = true := by
  cases a <;> cases b <;> simp_all [EScore.blt, EScore.ble] <;> exact le_of_lt h

theorem EScore.ble_trans {a b c : EScore} (h1 : EScore.ble a b = true)
    (h2 : EScore.ble b c = true) : EScore.ble a c = true := by
  cases a <;> cases b <;> cases c <;> simp_all [EScore.ble]
  exact le_trans h1 h2

theorem listModifyLast_cons {α : Type} (f : α → α) (x : α) (t : List α) :
    ∃ c t', listModifyLast f (x :: t) = c :: t' := by
  cases t with
  | nil => exact ⟨f x, [], rfl⟩
  | cons y u => exact ⟨x, listModifyLast f (y :: u), rfl⟩

theorem listModifyLast_getLast? {α : Type} (f : α → α) :
    ∀ l : List α, (listModifyLast f l).getLast? = l.getLast?.map f
  | [] => rfl
  | [a] => rfl
  | a :: b :: r => by
    have ih := listModifyLast_getLast? f (b :: r)
    obtain ⟨c, t', ht⟩ := listModifyLast_cons f b r
    simp only [listModifyLast, ht, List.getLast?_cons_cons]
    rw [← ht, ih]

theorem listModifyLast_map {α β : Type} (f : α → β) (g : α → α) (l : List α)
    (hfg : ∀ a, f (g a) = f a) : (listModifyLast g l).map f = l.map f := by
  induction l with
  | nil => rfl
  | cons a t ih =>
    cases t with
    | nil => simp [listModifyLast, hfg]
    | cons b r => simpa [listModifyLast] using ih

/- The suffixed best-flag name never collides with the plain name. -/
theorem append_best_ne (s : String) : s ≠ s ++ "_best" := by
  intro h
  have hlen := congrArg String.length h
  rw [String.length_append] at hlen
  have : String.length "_best" = 5 := rfl
  omega

theorem record_countKey_ne (h : History) (k k' : String) (v : HVal)
    (hk : k ≠ k') : (h.record k v).countKey k' = h.countKey k' := by
  unfold History.record History.countKey
  simp only
  rw [listModifyLast_map]
  intro ep
  simp [List.filter_append, hk]

theorem record_lastHas_self (h : History) (k : String) (v : HVal)
    (hne : h.epochs.getLast?.isSome) : (h.record k v).lastHas k v = true := by
  unfold History.record History.lastHas
  simp only
  rw [listModifyLast_getLast?]
  cases hl : h.epochs.getLast? with
  | none => rw [hl] at hne; simp at hne
  | some ep => simp

theorem record_lastHas_mono (h : History) (k k' : String) (v v' : HVal)
    (hhas : h.lastHas k v = true) : (h.record k' v').lastHas k v = true := by
  unfold History.record History.lastHas
  unfold History.lastHas at hhas
  simp only
  rw [listModifyLast_getLast?]
  cases hl : h.epochs.getLast? with
  | none => rw [hl] at hhas; simp at hhas
  | some ep =>
    rw [hl] at hhas
    simp only [Option.map_some', List.any_append]
    simp_all

theorem record_getLast?_isSome (h : History) (k : String) (v : HVal)
    (hne : h.epochs.getLast?.isSome) :
    (h.record k v).epochs.getLast?.isSome := by
  unfold History.record
  simp only
  rw [listModifyLast_getLast?]
  cases hl : h.epochs.getLast? with
  | none => rw [hl] at hne; simp at hne
  | some ep => simp

/- ------------------------------------------------------------------ -/
/- Claim C1.                                                           -/
/- ------------------------------------------------------------------ -/

def cbC1 : ScoringState := initScoring (some true) false "accuracy"

def histC1 : History := ⟨[⟨[], []⟩]⟩

/-- C1: the claim states that any exception raised by the scorer call in
BatchScoring.on_batch_end (phase matching) is caught and silently ignored.
Counterexample: a TypeError raised by the scorer propagates out of
on_batch_end (the except clause names only KeyError). -/
theorem C1_batch_scorer_exception_counterexample :
    BatchScoring.on_batch_end cbC1 histC1 false (.error .typeError) =
      .error .typeError ∧
    ∀ h' : History, BatchScoring.on_batch_end cbC1 histC1 false
      (.error .typeError) ≠ .ok h' := by
  constructor
  · rfl
  · intro h' hc
    rw [show BatchScoring.on_batch_end cbC1 histC1 false (.error .typeError) =
      .error .typeError from rfl] at hc
    exact Except.noConfusion hc

/-- C1 (amended): for a batch-end event whose phase matches the configured
phase, a KeyError raised by the scorer call is caught and silently ignored
(the history is returned unchanged and nothing propagates), while any other
exception propagates uncaught. -/
theorem C1_batch_scorer_keyerror_ignored (cb : ScoringState) (h : History)
    (training : Bool) (htr : training = cb.on_train) :
    BatchScoring.on_batch_end cb h training (.error .keyError) = .ok h ∧
    ∀ e : PyErr, e ≠ .keyError →
      BatchScoring.on_batch_end cb h training (.error e) = .error e := by
  subst htr
  constructor
  · simp [BatchScoring.on_batch_end]
  · intro e he
    cases e <;> simp_all [BatchScoring.on_batch_end]

theorem C1_batch_scorer_keyerror_ignored_witness :
    (false = cbC1.on_train) ∧
    (BatchScoring.on_batch_end cbC1 histC1 false (.error .keyError) = .ok histC1 ∧
     ∀ e : PyErr, e ≠ .keyError →
       BatchScoring.on_batch_end cbC1 histC1 false (.error e) = .error e) :=
  ⟨rfl, C1_batch_scorer_keyerror_ignored cbC1 histC1 false rfl⟩

/- ------------------------------------------------------------------ -/
/- Claim C2.                                                           -/
/- ------------------------------------------------------------------ -/

/-- C2: the claim states that multi_indexing raises a type error for a numpy
index array whose dtype is neither integer nor boolean.  Counterexample: for
a float index array it raises an IndexError, which is distinct from a
TypeError. -/
theorem C2_index_array_dtype_counterexample :
    multi_indexing (.npArr [1, 2, 3]) (.array .float [0]) =
      .error .indexError ∧
    PyErr.indexError ≠ PyErr.typeError := by
  constructor
  · rfl
  · intro hc
    exact PyErr.noConfusion hc

/-- C2 (amended): for every numpy index array whose dtype is neither integer
nor boolean, multi_indexing raises an IndexError, for any data argument. -/
theorem C2_index_array_dtype_indexerror (data : PyData) (dt : NpDtype)
    (vs : List Int) (h1 : dt ≠ .int) (h2 : dt ≠ .bool) :
    multi_indexing data (.array dt vs) = .error .indexError := by
  cases dt <;> simp_all [multi_indexing, preprocessIx]

theorem C2_index_array_dtype_indexerror_witness :
    (NpDtype.float ≠ NpDtype.int) ∧ (NpDtype.float ≠ NpDtype.bool) ∧
    multi_indexing (.num 0) (.array .float [1, 2]) = .error .indexError :=
  ⟨by decide, by decide,
   C2_index_array_dtype_indexerror (.num 0) .float [1, 2] (by decide) (by decide)⟩

/- ------------------------------------------------------------------ -/
/- Claim C5.                                                           -/
/- ------------------------------------------------------------------ -/

def cbLoss : ScoringState :=
  { lower_is_better := some true, on_train := false, name_ := "loss",
    best_score_ := .pinf }

/- A batch record holding a validation batch size (the weight) and a "loss"
score. -/
def mkLossBatch (p : ℚ × ℚ) : BatchRecord :=
  ⟨[("valid_batch_size", p.1), ("loss", p.2)]⟩

def histOfBatchPairs (ps : List (ℚ × ℚ)) : History :=
  ⟨[⟨[], ps.map mkLossBatch⟩]⟩

theorem histPairs_filterMap (ps : List (ℚ × ℚ)) :
    (ps.map mkLossBatch).filterMap (fun b =>
      match b.find "valid_batch_size", b.find "loss" with
      | some w, some s => some (w, s)
      | _, _ => none) = ps := by
  induction ps with
  | nil => rfl
  | cons p t ih =>
    have h1 : (mkLossBatch p).find "valid_batch_size" = some p.1 := rfl
    have h2 : (mkLossBatch p).find "loss" = some p.2 := rfl
    simp only [List.map_cons, List.filterMap_cons, h1, h2, ih]

theorem zip_mul_sum (ps : List (ℚ × ℚ)) :
    (List.zipWith (fun s w => s * w) (ps.map (fun p => p.2))
      (ps.map (fun p => p.1))).sum = (ps.map (fun p => p.1 * p.2)).sum := by
  induction ps with
  | nil => rfl
  | cons p t ih =>
    simp only [List.map_cons, List.zipWith_cons_cons, List.sum_cons, ih]
    ring

/-- C5: at epoch end, BatchScoring computes the epoch score as the weighted
average of the per-batch scores recorded under its name, with weights equal
to the per-batch sample counts: sum(weight*score)/sum(weight). -/
theorem C5_weighted_average (ps : List (ℚ × ℚ))
    (hw : (ps.map (fun p => p.1)).sum ≠ 0) :
    BatchScoring.get_avg_score cbLoss (histOfBatchPairs ps) =
      .ok ((ps.map (fun p => p.1 * p.2)).sum / (ps.map (fun p => p.1)).sum) := by
  unfold BatchScoring.get_avg_score
  have hlb : (histOfBatchPairs ps).lastBatches = ps.map mkLossBatch := rfl
  simp only [cbLoss, Bool.false_eq_true, if_false, hlb, histPairs_filterMap]
  unfold npAverage
  simp only [hw, if_false, zip_mul_sum]

/-- Concrete instance: batch records [(weight=2, score=0.8), (weight=1,
score=0.6)] average to (0.8*2 + 0.6*1)/3. -/
theorem C5_weighted_average_witness :
    (([((2 : ℚ), (8/10 : ℚ)), (1, 6/10)].map (fun p => p.1)).sum ≠ 0) ∧
    BatchScoring.get_avg_score cbLoss
        (histOfBatchPairs [((2 : ℚ), 8/10), (1, 6/10)]) =
      .ok ((8/10 * 2 + 6/10 * 1) / 3) := by
  refine ⟨by norm_num, ?_⟩
  rw [C5_weighted_average [((2 : ℚ), 8/10), (1, 6/10)] (by norm_num)]
  norm_num

/- ------------------------------------------------------------------ -/
/- Claim C6.                                                           -/
/- ------------------------------------------------------------------ -/

def cbPrior : ScoringState :=
  { lower_is_better := some true, on_train := false, name_ := "loss",
    best_score_ := .fin 1 }

def hist09 : History := ⟨[⟨[], [⟨[("valid_batch_size", 1), ("loss", 9/10)]⟩]⟩]⟩

def hist11 : History := ⟨[⟨[], [⟨[("valid_batch_size", 1), ("loss", 11/10)]⟩]⟩]⟩

/-- C6: with lower_is_better=True and current best 1.0, an epoch average of
0.9 records "loss_best" = True and sets best_score_ to 0.9, while an epoch
average of 1.1 records "loss_best" = False and leaves best_score_ at 1.0. -/
theorem C6_lower_is_better_update :
    BatchScoring.on_epoch_end cbPrior hist09 =
      .ok ({ cbPrior with best_score_ := .fin (9/10) },
        ⟨[⟨[("loss", .num (9/10)), ("loss_best", .flag true)],
           [⟨[("valid_batch_size", 1), ("loss", 9/10)]⟩]⟩]⟩) ∧
    BatchScoring.on_epoch_end cbPrior hist11 =
      .ok (cbPrior,
        ⟨[⟨[("loss", .num (11/10)), ("loss_best", .flag false)],
           [⟨[("valid_batch_size", 1), ("loss", 11/10)]⟩]⟩]⟩) := by
  constructor <;>
  · simp [cbPrior, hist09, hist11, BatchScoring.on_epoch_end, History.lastBatchVals,
      BatchScoring.get_avg_score, npAverage, BatchRecord.find, History.record,
      listModifyLast, ScoringState.is_best_score, EScore.blt, History.lastBatches]
    norm_num

/- ------------------------------------------------------------------ -/
/- Claim C7.                                                           -/
/- ------------------------------------------------------------------ -/

/-- C7: at epoch end, if extracting a flat (inputs, targets) pair from the
selected dataset fails, EpochScoring.on_epoch_end emits a warning and
returns with the history unchanged, the callback state unchanged, and no
exception. -/
theorem C7_epoch_extraction_failure_warns_and_skips (cb : ScoringState)
    (h : History) (dataset_train dataset_valid : Dataset) (s : ℚ)
    (hfail : (if cb.on_train then dataset_train else dataset_valid).xy = none) :
    EpochScoring.on_epoch_end cb h dataset_train dataset_valid s =
      .ok ⟨cb, h, true⟩ := by
  simp [EpochScoring.on_epoch_end, data_from_dataset, hfail]

def cbC7 : ScoringState := initScoring (some true) false "accuracy"

def datasetBad : Dataset := ⟨none⟩

def datasetGood : Dataset := ⟨some (some 0, some 0)⟩

theorem C7_epoch_extraction_failure_witness :
    (if cbC7.on_train then datasetGood else datasetBad).xy = none ∧
    EpochScoring.on_epoch_end cbC7 histC1 datasetGood datasetBad 1 =
      .ok ⟨cbC7, histC1, true⟩ :=
  ⟨rfl, C7_epoch_extraction_failure_warns_and_skips cbC7 histC1
    datasetGood datasetBad 1 rfl⟩

/- ------------------------------------------------------------------ -/
/- Claim C9.                                                           -/
/- ------------------------------------------------------------------ -/

theorem dictIndex_slice (es : List (String × List PyData)) (a b : Option Int) :
    dictIndex (es.map (fun p => (p.1, PyData.plist p.2))) (.slice a b) =
      .ok (es.map (fun p => (p.1, PyData.plist (pySlice p.2 a b)))) := by
  induction es with
  | nil => rfl
  | cons p t ih =>
    obtain ⟨k, v⟩ := p
    simp [dictIndex, PyData.getitem, ih]

/-- C9: for a dictionary whose values are equal-length sequences, indexing
with a slice returns a dictionary with the same keys where each value is
the result of applying that same slice to the original value. -/
theorem C9_dict_slice_indexing (es : List (String × List PyData))
    (a b : Option Int) (n : Nat) (hlen : ∀ p ∈ es, p.2.length = n) :
    multi_indexing (.pdict (es.map (fun p => (p.1, .plist p.2)))) (.slice a b) =
      .ok (.pdict (es.map (fun p => (p.1, .plist (pySlice p.2 a b))))) := by
  simp [multi_indexing, preprocessIx, multi_indexing_pre, dictIndex_slice es a b]

theorem C9_dict_slice_indexing_witness :
    (∀ p ∈ [("a", [PyData.num 1, PyData.num 2, PyData.num 3]),
            ("b", [PyData.num 4, PyData.num 5, PyData.num 6])],
        p.2.length = 3) ∧
    multi_indexing (.pdict [("a", .plist [.num 1, .num 2, .num 3]),
                            ("b", .plist [.num 4, .num 5, .num 6])])
        (.slice (some 1) (some 3)) =
      .ok (.pdict [("a", .plist [.num 2, .num 3]),
                   ("b", .plist [.num 5, .num 6])]) := by
  refine ⟨by simp, ?_⟩
  have hc := C9_dict_slice_indexing
    [("a", [PyData.num 1, PyData.num 2, PyData.num 3]),
     ("b", [PyData.num 4, PyData.num 5, PyData.num 6])]
    (some 1) (some 3) 3 (by simp)
  simpa [pySlice, normIdx] using hc

/- ------------------------------------------------------------------ -/
/- Claim C10.                                                          -/
/- ------------------------------------------------------------------ -/

theorem flatten_append (l1 l2 : List PyObj) :
    flatten (l1 ++ l2) = flatten l1 ++ flatten l2 := by
  induction l1 with
  | nil => simp [flatten]
  | cons x t ih => simp [flatten, ih]

theorem flattenKeys_eq (es : List (PyObj × PyObj)) :
    flattenKeys es = flatten (es.map (fun p => p.1)) := by
  induction es with
  | nil => simp [flattenKeys, flatten]
  | cons p t ih =>
    obtain ⟨k, v⟩ := p
    simp [flattenKeys, flatten, ih]

/-- C10: when an argument to duplicate_items is a mapping, only its keys
participate in duplicate detection (dictionary values never influence the
result); duplicate_items on one dict with distinct keys and repeated values
is empty, while a key shared with another collection's item is reported. -/
theorem C10_duplicate_items_dict_keys_only :
    (∀ (pre post : List PyObj) (es fs : List (PyObj × PyObj)),
        es.map (fun p => p.1) = fs.map (fun p => p.1) →
        duplicate_items (pre ++ .dictv es :: post) =
          duplicate_items (pre ++ .dictv fs :: post)) ∧
    duplicate_items [.dictv [(.intv 1, .strv "a"), (.intv 2, .strv "a")]] = [] ∧
    duplicate_items [.listv [.intv 1, .intv 2],
      .dictv [(.intv 3, .strv "hi"), (.intv 4, .strv "ha")],
      .tuplev [.intv 2, .intv 3]] = [.intv 2, .intv 3] := by
  refine ⟨?_, ?_, ?_⟩
  · intro pre post es fs hk
    unfold duplicate_items
    rw [flatten_append, flatten_append]
    simp [flatten, flattenItem, flattenKeys_eq, hk]
  · simp [duplicate_items, flatten, flattenItem, flattenKeys, dupAux, pyObjBeq]
  · simp [duplicate_items, flatten, flattenItem, flattenKeys, dupAux, pyObjBeq,
      pyObjListBeq]

theorem C10_duplicate_items_witness :
    duplicate_items ([] ++ .dictv [(.intv 1, .strv "a"), (.intv 2, .strv "a")] :: []) =
      duplicate_items ([] ++ .dictv [(.intv 1, .strv "x"), (.intv 2, .strv "y")] :: []) :=
  C10_duplicate_items_dict_keys_only.1 [] [] _ _ rfl

/- ------------------------------------------------------------------ -/
/- Claim C3.                                                           -/
/- ------------------------------------------------------------------ -/

/-- C3: for a scoring callback with lower_is_better=None, no "<name>_best"
field is ever recorded into the history at epoch end by either variant (the
flag is omitted entirely, not recorded as False) and the callback state,
best_score_ included, is never updated. -/
theorem C3_no_best_flag_when_disabled (cb : ScoringState) (h : History)
    (hn : cb.lower_is_better = none) :
    (∀ (cb' : ScoringState) (h' : History),
        BatchScoring.on_epoch_end cb h = .ok (cb', h') →
        cb' = cb ∧
        h'.countKey (cb.name_ ++ "_best") = h.countKey (cb.name_ ++ "_best")) ∧
    (∀ (dataset_train dataset_valid : Dataset) (s : ℚ) (r : EpochEndResult),
        EpochScoring.on_epoch_end cb h dataset_train dataset_valid s = .ok r →
        r.cb = cb ∧
        r.hist.countKey (cb.name_ ++ "_best") = h.countKey (cb.name_ ++ "_best")) := by
  have hbest : ∀ s : ℚ, cb.is_best_score s = none := by
    intro s
    simp [ScoringState.is_best_score, hn]
  constructor
  · intro cb' h' hok
    unfold BatchScoring.on_epoch_end at hok
    cases hv : h.lastBatchVals cb.name_ with
    | error e =>
      rw [hv] at hok
      cases e <;> simp at hok
      obtain ⟨h1, h2⟩ := hok
      subst h1
      subst h2
      exact ⟨rfl, rfl⟩
    | ok vs =>
      rw [hv] at hok
      cases hg : BatchScoring.get_avg_score cb h with
      | error e =>
        rw [hg] at hok
        simp at hok
      | ok avg =>
        rw [hg] at hok
        simp only [hbest] at hok
        simp at hok
        obtain ⟨h1, h2⟩ := hok
        subst h1
        subst h2
        exact ⟨rfl, record_countKey_ne h cb.name_ (cb.name_ ++ "_best") _
          (append_best_ne cb.name_)⟩
  · intro dataset_train dataset_valid s r hok
    simp only [EpochScoring.on_epoch_end] at hok
    cases hd : data_from_dataset (if cb.on_train then dataset_train else dataset_valid) with
    | error e =>
      rw [hd] at hok
      cases e <;> simp at hok
      subst hok
      exact ⟨rfl, rfl⟩
    | ok p =>
      rw [hd] at hok
      obtain ⟨X, y⟩ := p
      cases X with
      | none =>
        simp at hok
        subst hok
        exact ⟨rfl, rfl⟩
      | some x =>
        simp only [hbest] at hok
        simp at hok
        subst hok
        exact ⟨rfl, record_countKey_ne h cb.name_ (cb.name_ ++ "_best") _
          (append_best_ne cb.name_)⟩

def cbNone : ScoringState :=
  { lower_is_better := none, on_train := false, name_ := "loss",
    best_score_ := .ninf }

def histNoneOut : History :=
  ⟨[⟨[("loss", .num (9/10))], [⟨[("valid_batch_size", 1), ("loss", 9/10)]⟩]⟩]⟩

theorem C3_no_best_flag_witness :
    cbNone.lower_is_better = none ∧
    (cbNone = cbNone ∧
     histNoneOut.countKey (cbNone.name_ ++ "_best") =
       hist09.countKey (cbNone.name_ ++ "_best")) := by
  refine ⟨rfl, ?_⟩
  exact (C3_no_best_flag_when_disabled cbNone hist09 rfl).1 cbNone histNoneOut (by
    simp [cbNone, hist09, histNoneOut, BatchScoring.on_epoch_end,
      History.lastBatchVals, BatchScoring.get_avg_score, npAverage,
      BatchRecord.find, History.record, listModifyLast,
      ScoringState.is_best_score, History.lastBatches])

/- ------------------------------------------------------------------ -/
/- Claim C4: helper lemmas.                                            -/
/- ------------------------------------------------------------------ -/

theorem is_best_lower (cb : ScoringState) (s : ℚ)
    (hl : cb.lower_is_better = some true) :
    cb.is_best_score s = some (EScore.blt (.fin s) cb.best_score_) := by
  simp [ScoringState.is_best_score, hl]

theorem is_best_higher (cb : ScoringState) (s : ℚ)
    (hl : cb.lower_is_better = some false) :
    cb.is_best_score s = some (EScore.blt cb.best_score_ (.fin s)) := by
  simp [ScoringState.is_best_score, hl]

/- Full case analysis of a successful BatchScoring.on_epoch_end. -/
theorem batch_epoch_end_cases (cb : ScoringState) (h : History)
    (cb' : ScoringState) (h' : History)
    (hok : BatchScoring.on_epoch_end cb h = .ok (cb', h')) :
    (cb' = cb ∧ h' = h) ∨
    (∃ avg b, cb.is_best_score avg = some b ∧ h.epochs.getLast?.isSome ∧
      cb' = (if b then { cb with best_score_ := .fin avg } else cb) ∧
      h' = (h.record cb.name_ (.num avg)).record (cb.name_ ++ "_best") (.flag b)) ∨
    (∃ avg, cb.is_best_score avg = none ∧ h.epochs.getLast?.isSome ∧
      cb' = cb ∧ h' = h.record cb.name_ (.num avg)) := by
  unfold BatchScoring.on_epoch_end at hok
  cases hv : h.lastBatchVals cb.name_ with
  | error e =>
    rw [hv] at hok
    cases e <;> simp at hok
    obtain ⟨h1, h2⟩ := hok
    subst h1
    subst h2
    exact Or.inl ⟨rfl, rfl⟩
  | ok vs =>
    have hsome : h.epochs.getLast?.isSome := by
      unfold History.lastBatchVals at hv
      cases hl : h.epochs.getLast? with
      | none => rw [hl] at hv; simp at hv
      | some ep => simp
    rw [hv] at hok
    cases hg : BatchScoring.get_avg_score cb h with
    | error e =>
      rw [hg] at hok
      simp at hok
    | ok avg =>
      rw [hg] at hok
      cases hib : cb.is_best_score avg with
      | none =>
        simp only [hib] at hok
        simp at hok
        obtain ⟨h1, h2⟩ := hok
        subst h1
        subst h2
        exact Or.inr (Or.inr ⟨avg, hib, hsome, rfl, rfl⟩)
      | some b =>
        simp only [hib] at hok
        cases b with
        | true =>
          simp at hok
          obtain ⟨h1, h2⟩ := hok
          subst h1
          subst h2
          exact Or.inr (Or.inl ⟨avg, true, hib, hsome, by simp, rfl⟩)
        | false =>
          simp at hok
          obtain ⟨h1, h2⟩ := hok
          subst h1
          subst h2
          exact Or.inr (Or.inl ⟨avg, false, hib, hsome, by simp, rfl⟩)

/- Full case analysis of a successful EpochScoring.on_epoch_end. -/
theorem epoch_scoring_end_cases (cb : ScoringState) (h : History)
    (dt dv : Dataset) (s : ℚ) (r : EpochEndResult)
    (hok : EpochScoring.on_epoch_end cb h dt dv s = .ok r) :
    (r.cb = cb ∧ r.hist = h) ∨
    (∃ b, cb.is_best_score s = some b ∧
      r.cb = (if b then { cb with best_score_ := .fin s } else cb) ∧
      r.hist = (h.record cb.name_ (.num s)).record (cb.name_ ++ "_best") (.flag b)) ∨
    (cb.is_best_score s = none ∧ r.cb = cb ∧ r.hist = h.record cb.name_ (.num s)) := by
  simp only [EpochScoring.on_epoch_end] at hok
  cases hd : data_from_dataset (if cb.on_train then dt else dv) with
  | error e =>
    rw [hd] at hok
    cases e <;> simp at hok
    subst hok
    exact Or.inl ⟨rfl, rfl⟩
  | ok p =>
    rw [hd] at hok
    obtain ⟨X, y⟩ := p
    cases X with
    | none =>
      simp at hok
      subst hok
      exact Or.inl ⟨rfl, rfl⟩
    | some x =>
      cases hib : cb.is_best_score s with
      | none =>
        simp only [hib] at hok
        simp at hok
        subst hok
        exact Or.inr (Or.inr ⟨rfl, rfl, rfl⟩)
      | some b =>
        simp only [hib] at hok
        simp at hok
        subst hok
        exact Or.inr (Or.inl ⟨b, rfl, rfl, rfl⟩)

/- All fields except best_score_ are invariant under a successful epoch-end
step. -/
theorem batch_epoch_end_keeps (cb : ScoringState) (h : History)
    (cb' : ScoringState) (h' : History)
    (hok : BatchScoring.on_epoch_end cb h = .ok (cb', h')) :
    cb'.lower_is_better = cb.lower_is_better ∧ cb'.name_ = cb.name_ := by
  rcases batch_epoch_end_cases cb h cb' h' hok with
    ⟨hc, _⟩ | ⟨avg, b, _, _, hc, _⟩ | ⟨avg, _, _, hc, _⟩
  · rw [hc]; exact ⟨rfl, rfl⟩
  · rw [hc]; cases b <;> exact ⟨rfl, rfl⟩
  · rw [hc]; exact ⟨rfl, rfl⟩

theorem epoch_scoring_end_keeps (cb : ScoringState) (h : History)
    (dt dv : Dataset) (s : ℚ) (r : EpochEndResult)
    (hok : EpochScoring.on_epoch_end cb h dt dv s = .ok r) :
    r.cb.lower_is_better = cb.lower_is_better ∧ r.cb.name_ = cb.name_ := by
  rcases epoch_scoring_end_cases cb h dt dv s r hok with
    ⟨hc, _⟩ | ⟨b, _, hc, _⟩ | ⟨_, hc, _⟩
  · rw [hc]; exact ⟨rfl, rfl⟩
  · rw [hc]; cases b <;> exact ⟨rfl, rfl⟩
  · rw [hc]; exact ⟨rfl, rfl⟩

/- One BatchScoring epoch-end step, lower-is-better: best_score_ is either
untouched or replaced by a strictly smaller finite score that is recorded
in the history under the callback's name. -/
theorem batch_step_lower_disj (cb : ScoringState) (h : History)
    (cb' : ScoringState) (h' : History) (hl : cb.lower_is_better = some true)
    (hok : BatchScoring.on_epoch_end cb h = .ok (cb', h')) :
    cb'.best_score_ = cb.best_score_ ∨
    (∃ s, cb'.best_score_ = .fin s ∧
      EScore.blt (.fin s) cb.best_score_ = true ∧
      h'.lastHas cb.name_ (.num s) = true) := by
  rcases batch_epoch_end_cases cb h cb' h' hok with
    ⟨hc, _⟩ | ⟨avg, b, hib, hsome, hc, hh⟩ | ⟨avg, hib, _, hc, _⟩
  · exact Or.inl (by rw [hc])
  · have hb : EScore.blt (.fin avg) cb.best_score_ = b :=
      Option.some.inj ((is_best_lower cb avg hl).symm.trans hib)
    subst hb
    cases hbv : EScore.blt (.fin avg) cb.best_score_ with
    | false =>
      rw [hbv] at hc
      simp at hc
      exact Or.inl (by rw [hc])
    | true =>
      rw [hbv] at hc
      simp at hc
      refine Or.inr ⟨avg, by rw [hc], hbv, ?_⟩
      rw [hh]
      exact record_lastHas_mono _ _ _ _ _
        (record_lastHas_self h cb.name_ (.num avg) hsome)
  · rw [is_best_lower cb avg hl] at hib
    exact absurd hib (by simp)

/- One BatchScoring epoch-end step, higher-is-better. -/
theorem batch_step_higher_disj (cb : ScoringState) (h : History)
    (cb' : ScoringState) (h' : History) (hl : cb.lower_is_better = some false)
    (hok : BatchScoring.on_epoch_end cb h = .ok (cb', h')) :
    cb'.best_score_ = cb.best_score_ ∨
    (∃ s, cb'.best_score_ = .fin s ∧
      EScore.blt cb.best_score_ (.fin s) = true ∧
      h'.lastHas cb.name_ (.num s) = true) := by
  rcases batch_epoch_end_cases cb h cb' h' hok with
    ⟨hc, _⟩ | ⟨avg, b, hib, hsome, hc, hh⟩ | ⟨avg, hib, _, hc, _⟩
  · exact Or.inl (by rw [hc])
  · have hb : EScore.blt cb.best_score_ (.fin avg) = b :=
      Option.some.inj ((is_best_higher cb avg hl).symm.trans hib)
    subst hb
    cases hbv : EScore.blt cb.best_score_ (.fin avg) with
    | false =>
      rw [hbv] at hc
      simp at hc
      exact Or.inl (by rw [hc])
    | true =>
      rw [hbv] at hc
      simp at hc
      refine Or.inr ⟨avg, by rw [hc], hbv, ?_⟩
      rw [hh]
      exact record_lastHas_mono _ _ _ _ _
        (record_lastHas_self h cb.name_ (.num avg) hsome)
  · rw [is_best_higher cb avg hl] at hib
    exact absurd hib (by simp)

/- One EpochScoring epoch-end step, lower-is-better, in the presence of a
current epoch record. -/
theorem epoch_step_lower_disj (cb : ScoringState) (h : History)
    (dt dv : Dataset) (s : ℚ) (r : EpochEndResult)
    (hl : cb.lower_is_better = some true) (hne : h.epochs.getLast?.isSome)
    (hok : EpochScoring.on_epoch_end cb h dt dv s = .ok r) :
    r.cb.best_score_ = cb.best_score_ ∨
    (∃ q, r.cb.best_score_ = .fin q ∧
      EScore.blt (.fin q) cb.best_score_ = true ∧
      r.hist.lastHas cb.name_ (.num q) = true) := by
  rcases epoch_scoring_end_cases cb h dt dv s r hok with
    ⟨hc, _⟩ | ⟨b, hib, hc, hh⟩ | ⟨hib, hc, _⟩
  · exact Or.inl (by rw [hc])
  · have hb : EScore.blt (.fin s) cb.best_score_ = b :=
      Option.some.inj ((is_best_lower cb s hl).symm.trans hib)
    subst hb
    cases hbv : EScore.blt (.fin s) cb.best_score_ with
    | false =>
      rw [hbv] at hc
      simp at hc
      exact Or.inl (by rw [hc])
    | true =>
      rw [hbv] at hc
      simp at hc
      refine Or.inr ⟨s, by rw [hc], hbv, ?_⟩
      rw [hh]
      exact record_lastHas_mono _ _ _ _ _
        (record_lastHas_self h cb.name_ (.num s) hne)
  · rw [is_best_lower cb s hl] at hib
    exact absurd hib (by simp)

/- One EpochScoring epoch-end step, higher-is-better. -/
theorem epoch_step_higher_disj (cb : ScoringState) (h : History)
    (dt dv : Dataset) (s : ℚ) (r : EpochEndResult)
    (hl : cb.lower_is_better = some false) (hne : h.epochs.getLast?.isSome)
    (hok : EpochScoring.on_epoch_end cb h dt dv s = .ok r) :
    r.cb.best_score_ = cb.best_score_ ∨
    (∃ q, r.cb.best_score_ = .fin q ∧
      EScore.blt cb.best_score_ (.fin q) = true ∧
      r.hist.lastHas cb.name_ (.num q) = true) := by
  rcases epoch_scoring_end_cases cb h dt dv s r hok with
    ⟨hc, _⟩ | ⟨b, hib, hc, hh⟩ | ⟨hib, hc, _⟩
  · exact Or.inl (by rw [hc])
  · have hb : EScore.blt cb.best_score_ (.fin s) = b :=
      Option.some.inj ((is_best_higher cb s hl).symm.trans hib)
    subst hb
    cases hbv : EScore.blt cb.best_score_ (.fin s) with
    | false =>
      rw [hbv] at hc
      simp at hc
      exact Or.inl (by rw [hc])
    | true =>
      rw [hbv] at hc
      simp at hc
      refine Or.inr ⟨s, by rw [hc], hbv, ?_⟩
      rw [hh]
      exact record_lastHas_mono _ _ _ _ _
        (record_lastHas_self h cb.name_ (.num s) hne)
  · rw [is_best_higher cb s hl] at hib
    exact absurd hib (by simp)

theorem batch_step_ble_lower (cb : ScoringState) (h : History)
    (cb' : ScoringState) (h' : History) (hl : cb.lower_is_better = some true)
    (hok : BatchScoring.on_epoch_end cb h = .ok (cb', h')) :
    EScore.ble cb'.best_score_ cb.best_score_ = true := by
  rcases batch_step_lower_disj cb h cb' h' hl hok with hc | ⟨s, hcb, hblt, _⟩
  · rw [hc]; exact EScore.ble_refl _
  · rw [hcb]; exact EScore.ble_of_blt hblt

theorem batch_step_ble_higher (cb : ScoringState) (h : History)
    (cb' : ScoringState) (h' : History) (hl : cb.lower_is_better = some false)
    (hok : BatchScoring.on_epoch_end cb h = .ok (cb', h')) :
    EScore.ble cb.best_score_ cb'.best_score_ = true := by
  rcases batch_step_higher_disj cb h cb' h' hl hok with hc | ⟨s, hcb, hblt, _⟩
  · rw [hc]; exact EScore.ble_refl _
  · rw [hcb]; exact EScore.ble_of_blt hblt

theorem epoch_step_ble_lower (cb : ScoringState) (h : History)
    (dt dv : Dataset) (s : ℚ) (r : EpochEndResult)
    (hl : cb.lower_is_better = some true)
    (hok : EpochScoring.on_epoch_end cb h dt dv s = .ok r) :
    EScore.ble r.cb.best_score_ cb.best_score_ = true := by
  rcases epoch_scoring_end_cases cb h dt dv s r hok with
    ⟨hc, _⟩ | ⟨b, hib, hc, _⟩ | ⟨hib, hc, _⟩
  · rw [hc]; exact EScore.ble_refl _
  · have hb : EScore.blt (.fin s) cb.best_score_ = b :=
      Option.some.inj ((is_best_lower cb s hl).symm.trans hib)
    subst hb
    cases hbv : EScore.blt (.fin s) cb.best_score_ with
    | false =>
      rw [hbv] at hc
      simp at hc
      rw [hc]
      exact EScore.ble_refl _
    | true =>
      rw [hbv] at hc
      simp at hc
      rw [hc]
      exact EScore.ble_of_blt hbv
  · rw [hc]; exact EScore.ble_refl _

theorem epoch_step_ble_higher (cb : ScoringState) (h : History)
    (dt dv : Dataset) (s : ℚ) (r : EpochEndResult)
    (hl : cb.lower_is_better = some false)
    (hok : EpochScoring.on_epoch_end cb h dt dv s = .ok r) :
    EScore.ble cb.best_score_ r.cb.best_score_ = true := by
  rcases epoch_scoring_end_cases cb h dt dv s r hok with
    ⟨hc, _⟩ | ⟨b, hib, hc, _⟩ | ⟨hib, hc, _⟩
  · rw [hc]; exact EScore.ble_refl _
  · have hb : EScore.blt cb.best_score_ (.fin s) = b :=
      Option.some.inj ((is_best_higher cb s hl).symm.trans hib)
    subst hb
    cases hbv : EScore.blt cb.best_score_ (.fin s) with
    | false =>
      rw [hbv] at hc
      simp at hc
      rw [hc]
      exact EScore.ble_refl _
    | true =>
      rw [hbv] at hc
      simp at hc
      rw [hc]
      exact EScore.ble_of_blt hbv
  · rw [hc]; exact EScore.ble_refl _

/- The one-event state transition used by runEpochs. -/
def batchStep (cb : ScoringState) (h : History) : ScoringState :=
  match BatchScoring.on_epoch_end cb h with
  | .ok p => p.1
  | .error _ => cb

def epochStep (cb : ScoringState) (ev : EpochEv) : ScoringState :=
  match EpochScoring.on_epoch_end cb ev.hist ev.dtrain ev.dvalid ev.score with
  | .ok r => r.cb
  | .error _ => cb

theorem batch_runEpochs_eq (cb : ScoringState) :
    ∀ hs : List History, BatchScoring.runEpochs cb hs =
      hs.foldl batchStep cb := by
  intro hs
  induction hs generalizing cb with
  | nil => rfl
  | cons h t ih =>
    show BatchScoring.runEpochs (batchStep cb h) t = _
    rw [ih (batchStep cb h)]
    rfl

theorem epoch_runEpochs_eq (cb : ScoringState) :
    ∀ evs : List EpochEv, EpochScoring.runEpochs cb evs =
      evs.foldl epochStep cb := by
  intro evs
  induction evs generalizing cb with
  | nil => rfl
  | cons ev t ih =>
    show EpochScoring.runEpochs (epochStep cb ev) t = _
    rw [ih (epochStep cb ev)]
    rfl

theorem batchStep_keeps (cb : ScoringState) (h : History) :
    (batchStep cb h).lower_is_better = cb.lower_is_better := by
  unfold batchStep
  cases he : BatchScoring.on_epoch_end cb h with
  | error e => rfl
  | ok p => exact (batch_epoch_end_keeps cb h p.1 p.2 (by rw [he])).1

theorem epochStep_keeps (cb : ScoringState) (ev : EpochEv) :
    (epochStep cb ev).lower_is_better = cb.lower_is_better := by
  unfold epochStep
  cases he : EpochScoring.on_epoch_end cb ev.hist ev.dtrain ev.dvalid ev.score with
  | error e => rfl
  | ok r => exact (epoch_scoring_end_keeps cb ev.hist ev.dtrain ev.dvalid ev.score r he).1

theorem batchStep_ble_lower (cb : ScoringState) (h : History)
    (hl : cb.lower_is_better = some true) :
    EScore.ble (batchStep cb h).best_score_ cb.best_score_ = true := by
  unfold batchStep
  cases he : BatchScoring.on_epoch_end cb h with
  | error e => exact EScore.ble_refl _
  | ok p => exact batch_step_ble_lower cb h p.1 p.2 hl (by rw [he])

theorem batchStep_ble_higher (cb : ScoringState) (h : History)
    (hl : cb.lower_is_better = some false) :
    EScore.ble cb.best_score_ (batchStep cb h).best_score_ = true := by
  unfold batchStep
  cases he : BatchScoring.on_epoch_end cb h with
  | error e => exact EScore.ble_refl _
  | ok p => exact batch_step_ble_higher cb h p.1 p.2 hl (by rw [he])

theorem epochStep_ble_lower (cb : ScoringState) (ev : EpochEv)
    (hl : cb.lower_is_better = some true) :
    EScore.ble (epochStep cb ev).best_score_ cb.best_score_ = true := by
  unfold epochStep
  cases he : EpochScoring.on_epoch_end cb ev.hist ev.dtrain ev.dvalid ev.score with
  | error e => exact EScore.ble_refl _
  | ok r => exact epoch_step_ble_lower cb ev.hist ev.dtrain ev.dvalid ev.score r hl he

theorem epochStep_ble_higher (cb : ScoringState) (ev : EpochEv)
    (hl : cb.lower_is_better = some false) :
    EScore.ble cb.best_score_ (epochStep cb ev).best_score_ = true := by
  unfold epochStep
  cases he : EpochScoring.on_epoch_end cb ev.hist ev.dtrain ev.dvalid ev.score with
  | error e => exact EScore.ble_refl _
  | ok r => exact epoch_step_ble_higher cb ev.hist ev.dtrain ev.dvalid ev.score r hl he

theorem batch_run_keeps (hs : List History) :
    ∀ cb : ScoringState, (BatchScoring.runEpochs cb hs).lower_is_better =
      cb.lower_is_better := by
  induction hs with
  | nil => intro cb; rfl
  | cons h t ih =>
    intro cb
    show (BatchScoring.runEpochs (batchStep cb h) t).lower_is_better = _
    rw [ih (batchStep cb h), batchStep_keeps]

theorem epoch_run_keeps (evs : List EpochEv) :
    ∀ cb : ScoringState, (EpochScoring.runEpochs cb evs).lower_is_better =
      cb.lower_is_better := by
  induction evs with
  | nil => intro cb; rfl
  | cons ev t ih =>
    intro cb
    show (EpochScoring.runEpochs (epochStep cb ev) t).lower_is_better = _
    rw [ih (epochStep cb ev), epochStep_keeps]

theorem batch_run_ble_lower (hs : List History) :
    ∀ cb : ScoringState, cb.lower_is_better = some true →
      EScore.ble (BatchScoring.runEpochs cb hs).best_score_
        cb.best_score_ = true := by
  induction hs with
  | nil => intro cb hl; exact EScore.ble_refl _
  | cons h t ih =>
    intro cb hl
    show EScore.ble (BatchScoring.runEpochs (batchStep cb h) t).best_score_ _ = true
    have hl1 : (batchStep cb h).lower_is_better = some true := by
      rw [batchStep_keeps]; exact hl
    exact EScore.ble_trans (ih (batchStep cb h) hl1) (batchStep_ble_lower cb h hl)

theorem batch_run_ble_higher (hs : List History) :
    ∀ cb : ScoringState, cb.lower_is_better = some false →
      EScore.ble cb.best_score_
        (BatchScoring.runEpochs cb hs).best_score_ = true := by
  induction hs with
  | nil => intro cb hl; exact EScore.ble_refl _
  | cons h t ih =>
    intro cb hl
    show EScore.ble _ (BatchScoring.runEpochs (batchStep cb h) t).best_score_ = true
    have hl1 : (batchStep cb h).lower_is_better = some false := by
      rw [batchStep_keeps]; exact hl
    exact EScore.ble_trans (batchStep_ble_higher cb h hl) (ih (batchStep cb h) hl1)

theorem epoch_run_ble_lower (evs : List EpochEv) :
    ∀ cb : ScoringState, cb.lower_is_better = some true →
      EScore.ble (EpochScoring.runEpochs cb evs).best_score_
        cb.best_score_ = true := by
  induction evs with
  | nil => intro cb hl; exact EScore.ble_refl _
  | cons ev t ih =>
    intro cb hl
    show EScore.ble (EpochScoring.runEpochs (epochStep cb ev) t).best_score_ _ = true
    have hl1 : (epochStep cb ev).lower_is_better = some true := by
      rw [epochStep_keeps]; exact hl
    exact EScore.ble_trans (ih (epochStep cb ev) hl1) (epochStep_ble_lower cb ev hl)

theorem epoch_run_ble_higher (evs : List EpochEv) :
    ∀ cb : ScoringState, cb.lower_is_better = some false →
      EScore.ble cb.best_score_
        (EpochScoring.runEpochs cb evs).best_score_ = true := by
  induction evs with
  | nil => intro cb hl; exact EScore.ble_refl _
  | cons ev t ih =>
    intro cb hl
    show EScore.ble _ (EpochScoring.runEpochs (epochStep cb ev) t).best_score_ = true
    have hl1 : (epochStep cb ev).lower_is_better = some false := by
      rw [epochStep_keeps]; exact hl
    exact EScore.ble_trans (epochStep_ble_higher cb ev hl) (ih (epochStep cb ev) hl1)

theorem batch_runEpochs_append (l1 l2 : List History) :
    ∀ cb : ScoringState, BatchScoring.runEpochs cb (l1 ++ l2) =
      BatchScoring.runEpochs (BatchScoring.runEpochs cb l1) l2 := by
  induction l1 with
  | nil => intro cb; rfl
  | cons h t ih =>
    intro cb
    show BatchScoring.runEpochs (batchStep cb h) (t ++ l2) = _
    exact ih (batchStep cb h)

theorem epoch_runEpochs_append (l1 l2 : List EpochEv) :
    ∀ cb : ScoringState, EpochScoring.runEpochs cb (l1 ++ l2) =
      EpochScoring.runEpochs (EpochScoring.runEpochs cb l1) l2 := by
  induction l1 with
  | nil => intro cb; rfl
  | cons ev t ih =>
    intro cb
    show EpochScoring.runEpochs (epochStep cb ev) (t ++ l2) = _
    exact ih (epochStep cb ev)

/-- C4: for every scoring callback with lower_is_better=True (resp. False),
best_score_ starts at +inf (resp. -inf) after initialization and, across
any sequence of epoch-end events, is monotonically non-increasing (resp.
non-decreasing); at each step it is either untouched or replaced by a
strictly smaller (resp. strictly larger) finite score that is recorded into
the history under the callback's name (EpochScoring steps assume a current
epoch record exists, as the training loop guarantees). -/
theorem C4_best_score_monotone :
    (∀ (ot : Bool) (nm : String),
        (initScoring (some true) ot nm).best_score_ = EScore.pinf) ∧
    (∀ (ot : Bool) (nm : String),
        (initScoring (some false) ot nm).best_score_ = EScore.ninf) ∧
    (∀ (cb : ScoringState) (h : History) (cb' : ScoringState) (h' : History),
        cb.lower_is_better = some true →
        BatchScoring.on_epoch_end cb h = .ok (cb', h') →
        (cb'.best_score_ = cb.best_score_ ∨
          ∃ s, cb'.best_score_ = .fin s ∧
            EScore.blt (.fin s) cb.best_score_ = true ∧
            h'.lastHas cb.name_ (.num s) = true)) ∧
    (∀ (cb : ScoringState) (h : History) (cb' : ScoringState) (h' : History),
        cb.lower_is_better = some false →
        BatchScoring.on_epoch_end cb h = .ok (cb', h') →
        (cb'.best_score_ = cb.best_score_ ∨
          ∃ s, cb'.best_score_ = .fin s ∧
            EScore.blt cb.best_score_ (.fin s) = true ∧
            h'.lastHas cb.name_ (.num s) = true)) ∧
    (∀ (cb : ScoringState) (h : History) (dt dv : Dataset) (s : ℚ)
        (r : EpochEndResult),
        cb.lower_is_better = some true → h.epochs.getLast?.isSome →
        EpochScoring.on_epoch_end cb h dt dv s = .ok r →
        (r.cb.best_score_ = cb.best_score_ ∨
          ∃ q, r.cb.best_score_ = .fin q ∧
            EScore.blt (.fin q) cb.best_score_ = true ∧
            r.hist.lastHas cb.name_ (.num q) = true)) ∧
    (∀ (cb : ScoringState) (h : History) (dt dv : Dataset) (s : ℚ)
        (r : EpochEndResult),
        cb.lower_is_better = some false → h.epochs.getLast?.isSome →
        EpochScoring.on_epoch_end cb h dt dv s = .ok r →
        (r.cb.best_score_ = cb.best_score_ ∨
          ∃ q, r.cb.best_score_ = .fin q ∧
            EScore.blt cb.best_score_ (.fin q) = true ∧
            r.hist.lastHas cb.name_ (.num q) = true)) ∧
    (∀ (cb : ScoringState) (hs hs' : List History),
        cb.lower_is_better = some true →
        EScore.ble (BatchScoring.runEpochs cb (hs ++ hs')).best_score_
          (BatchScoring.runEpochs cb hs).best_score_ = true) ∧
    (∀ (cb : ScoringState) (hs hs' : List History),
        cb.lower_is_better = some false →
        EScore.ble (BatchScoring.runEpochs cb hs).best_score_
          (BatchScoring.runEpochs cb (hs ++ hs')).best_score_ = true) ∧
    (∀ (cb : ScoringState) (evs evs' : List EpochEv),
        cb.lower_is_better = some true →
        EScore.ble (EpochScoring.runEpochs cb (evs ++ evs')).best_score_
          (EpochScoring.runEpochs cb evs).best_score_ = true) ∧
    (∀ (cb : ScoringState) (evs evs' : List EpochEv),
        cb.lower_is_better = some false →
        EScore.ble (EpochScoring.runEpochs cb evs).best_score_
          (EpochScoring.runEpochs cb (evs ++ evs')).best_score_ = true) := by
  refine ⟨fun ot nm => rfl, fun ot nm => rfl, ?_, ?_, ?_, ?_, ?_, ?_, ?_, ?_⟩
  · exact fun cb h cb' h' hl hok => batch_step_lower_disj cb h cb' h' hl hok
  · exact fun cb h cb' h' hl hok => batch_step_higher_disj cb h cb' h' hl hok
  · exact fun cb h dt dv s r hl hne hok =>
      epoch_step_lower_disj cb h dt dv s r hl hne hok
  · exact fun cb h dt dv s r hl hne hok =>
      epoch_step_higher_disj cb h dt dv s r hl hne hok
  · intro cb hs hs' hl
    rw [batch_runEpochs_append hs hs' cb]
    exact batch_run_ble_lower hs' (BatchScoring.runEpochs cb hs)
      (by rw [batch_run_keeps]; exact hl)
  · intro cb hs hs' hl
    rw [batch_runEpochs_append hs hs' cb]
    exact batch_run_ble_higher hs' (BatchScoring.runEpochs cb hs)
      (by rw [batch_run_keeps]; exact hl)
  · intro cb evs evs' hl
    rw [epoch_runEpochs_append evs evs' cb]
    exact epoch_run_ble_lower evs' (EpochScoring.runEpochs cb evs)
      (by rw [epoch_run_keeps]; exact hl)
  · intro cb evs evs' hl
    rw [epoch_runEpochs_append evs evs' cb]
    exact epoch_run_ble_higher evs' (EpochScoring.runEpochs cb evs)
      (by rw [epoch_run_keeps]; exact hl)

theorem C4_best_score_monotone_witness :
    cbPrior.lower_is_better = some true ∧
    (({ cbPrior with best_score_ := .fin (9/10) } : ScoringState).best_score_ =
        cbPrior.best_score_ ∨
      ∃ s, ({ cbPrior with best_score_ := .fin (9/10) } : ScoringState).best_score_ =
          .fin s ∧
        EScore.blt (.fin s) cbPrior.best_score_ = true ∧
        History.lastHas
          ⟨[⟨[("loss", .num (9/10)), ("loss_best", .flag true)],
             [⟨[("valid_batch_size", 1), ("loss", 9/10)]⟩]⟩]⟩
          cbPrior.name_ (.num s) = true) := by
  refine ⟨rfl, ?_⟩
  exact C4_best_score_monotone.2.2.1 cbPrior hist09
    { cbPrior with best_score_ := .fin (9/10) }
    ⟨[⟨[("loss", .num (9/10)), ("loss_best", .flag true)],
       [⟨[("valid_batch_size", 1), ("loss", 9/10)]⟩]⟩]⟩
    rfl (by
      simp [cbPrior, hist09, BatchScoring.on_epoch_end, History.lastBatchVals,
        BatchScoring.get_avg_score, npAverage, BatchRecord.find, History.record,
        listModifyLast, ScoringState.is_best_score, EScore.blt, History.lastBatches]
      norm_num)

/- ------------------------------------------------------------------ -/
/- Claim C8.                                                           -/
/- ------------------------------------------------------------------ -/

theorem to_tensorList_isConv (c : Bool) (xs : List PyVal)
    (helem : ∀ x ∈ xs, ∀ y, to_tensor c x = .ok y → isConv c y = true) :
    ∀ ys, to_tensorList c xs = .ok ys → isConvList c ys = true := by
  induction xs with
  | nil =>
    intro ys h
    simp only [to_tensorList] at h
    cases h
    simp [isConvList]
  | cons x t ih =>
    intro ys h
    simp only [to_tensorList] at h
    cases hx : to_tensor c x with
    | error e => rw [hx] at h; simp at h
    | ok y =>
      rw [hx] at h
      cases ht : to_tensorList c t with
      | error e => rw [ht] at h; simp at h
      | ok ys' =>
        rw [ht] at h
        simp at h
        subst h
        simp only [isConvList, Bool.and_eq_true]
        constructor
        · exact helem x (List.mem_cons_self x t) y hx
        · exact ih (fun z hz => helem z (List.mem_cons_of_mem x hz)) ys' ht

theorem to_tensorEntries_isConv (c : Bool) (es : List (String × PyVal))
    (helem : ∀ p ∈ es, ∀ y, to_tensor c p.2 = .ok y → isConv c y = true) :
    ∀ fs, to_tensorEntries c es = .ok fs → isConvEntries c fs = true := by
  induction es with
  | nil =>
    intro fs h
    simp only [to_tensorEntries] at h
    cases h
    simp [isConvEntries]
  | cons p t ih =>
    intro fs h
    obtain ⟨k, v⟩ := p
    simp only [to_tensorEntries] at h
    cases hx : to_tensor c v with
    | error e => rw [hx] at h; simp at h
    | ok w =>
      rw [hx] at h
      cases ht : to_tensorEntries c t with
      | error e => rw [ht] at h; simp at h
      | ok ws =>
        rw [ht] at h
        simp at h
        subst h
        simp only [isConvEntries, Bool.and_eq_true]
        constructor
        · exact helem (k, v) (List.mem_cons_self (k, v) t) w hx
        · exact ih (fun z hz => helem z (List.mem_cons_of_mem (k, v) hz)) ws ht

theorem to_tensor_isConv_aux :
    ∀ (n : Nat) (c : Bool) (X : PyVal), sizeOf X < n →
      ∀ Y, to_tensor c X = .ok Y → isConv c Y = true := by
  intro n
  induction n with
  | zero =>
    intro c X hX
    exact absurd hX (Nat.not_lt_zero _)
  | succ n ih =>
    intro c X hX Y hY
    cases X with
    | pyvar i =>
      simp only [to_tensor] at hY
      cases hY
      simp [isConv]
    | packed i =>
      simp only [to_tensor] at hY
      cases hY
      simp [isConv]
    | tensor d cu =>
      simp only [to_tensor] at hY
      cases hY
      cases c <;> simp [isConv]
    | npArray d =>
      simp only [to_tensor] at hY
      cases hY
      cases c <;> simp [isConv]
    | pyscalar q =>
      simp only [to_tensor] at hY
      cases hY
      cases c <;> simp [isConv]
    | other i =>
      simp only [to_tensor] at hY
      exact absurd hY (by simp)
    | pylist xs =>
      simp only [to_tensor] at hY
      cases hl : to_tensorList c xs with
      | error e => rw [hl] at hY; simp at hY
      | ok ys =>
        rw [hl] at hY
        simp at hY
        subst hY
        simp only [isConv]
        refine to_tensorList_isConv c xs ?_ ys hl
        intro x hx y hxy
        refine ih c x ?_ y hxy
        have h1 := List.sizeOf_lt_of_mem hx
        simp only [PyVal.pylist.sizeOf_spec] at hX
        omega
    | pytuple xs =>
      simp only [to_tensor] at hY
      cases hl : to_tensorList c xs with
      | error e => rw [hl] at hY; simp at hY
      | ok ys =>
        rw [hl] at hY
        simp at hY
        subst hY
        simp only [isConv]
        refine to_tensorList_isConv c xs ?_ ys hl
        intro x hx y hxy
        refine ih c x ?_ y hxy
        have h1 := List.sizeOf_lt_of_mem hx
        simp only [PyVal.pytuple.sizeOf_spec] at hX
        omega
    | pydict es =>
      simp only [to_tensor] at hY
      cases hl : to_tensorEntries c es with
      | error e => rw [hl] at hY; simp at hY
      | ok fs =>
        rw [hl] at hY
        simp at hY
        subst hY
        simp only [isConv]
        refine to_tensorEntries_isConv c es ?_ fs hl
        intro p hp y hxy
        refine ih c p.2 ?_ y hxy
        have h1 := List.sizeOf_lt_of_mem hp
        simp only [PyVal.pydict.sizeOf_spec] at hX
        obtain ⟨a, b⟩ := p
        simp only [Prod.mk.sizeOf_spec] at h1
        show sizeOf b < n
        omega

theorem to_tensorList_self (c : Bool) (xs : List PyVal)
    (helem : ∀ x ∈ xs, isConv c x = true → to_tensor c x = .ok x)
    (h : isConvList c xs = true) : to_tensorList c xs = .ok xs := by
  induction xs with
  | nil => simp [to_tensorList]
  | cons x t ih =>
    simp only [isConvList, Bool.and_eq_true] at h
    obtain ⟨h1, h2⟩ := h
    have hx := helem x (List.mem_cons_self x t) h1
    have ht := ih (fun z hz => helem z (List.mem_cons_of_mem x hz)) h2
    simp only [to_tensorList, hx, ht]

theorem to_tensorEntries_self (c : Bool) (es : List (String × PyVal))
    (helem : ∀ p ∈ es, isConv c p.2 = true → to_tensor c p.2 = .ok p.2)
    (h : isConvEntries c es = true) : to_tensorEntries c es = .ok es := by
  induction es with
  | nil => simp [to_tensorEntries]
  | cons p t ih =>
    obtain ⟨k, v⟩ := p
    simp only [isConvEntries, Bool.and_eq_true] at h
    obtain ⟨h1, h2⟩ := h
    have hx := helem (k, v) (List.mem_cons_self (k, v) t) h1
    have ht := ih (fun z hz => helem z (List.mem_cons_of_mem (k, v) hz)) h2
    simp only [to_tensorEntries, hx, ht]

theorem isConv_to_tensor_aux :
    ∀ (n : Nat) (c : Bool) (Y : PyVal), sizeOf Y < n →
      isConv c Y = true → to_tensor c Y = .ok Y := by
  intro n
  induction n with
  | zero =>
    intro c Y hY
    exact absurd hY (Nat.not_lt_zero _)
  | succ n ih =>
    intro c Y hY hc
    cases Y with
    | pyvar i => simp [to_tensor]
    | packed i => simp [to_tensor]
    | tensor d cu =>
      simp only [isConv] at hc
      cases c <;> cases cu <;> simp_all [to_tensor]
    | npArray d => simp [isConv] at hc
    | pyscalar q => simp [isConv] at hc
    | other i => simp [isConv] at hc
    | pytuple xs => simp [isConv] at hc
    | pylist xs =>
      simp only [isConv] at hc
      have hl : to_tensorList c xs = .ok xs := by
        refine to_tensorList_self c xs ?_ hc
        intro x hx hcx
        refine ih c x ?_ hcx
        have h1 := List.sizeOf_lt_of_mem hx
        simp only [PyVal.pylist.sizeOf_spec] at hY
        omega
      simp only [to_tensor, hl]
    | pydict es =>
      simp only [isConv] at hc
      have hl : to_tensorEntries c es = .ok es := by
        refine to_tensorEntries_self c es ?_ hc
        intro p hp hcp
        refine ih c p.2 ?_ hcp
        have h1 := List.sizeOf_lt_of_mem hp
        simp only [PyVal.pydict.sizeOf_spec] at hY
        obtain ⟨a, b⟩ := p
        simp only [Prod.mk.sizeOf_spec] at h1
        show sizeOf b < n
        omega
      simp only [to_tensor, hl]

/-- C8: to_tensor is idempotent: whenever it succeeds, applying it again
with the same use_cuda flag to the result returns that result unchanged. -/
theorem C8_to_tensor_idempotent (use_cuda : Bool) (X Y : PyVal)
    (h : to_tensor use_cuda X = .ok Y) : to_tensor use_cuda Y = .ok Y :=
  isConv_to_tensor_aux (sizeOf Y + 1) use_cuda Y (Nat.lt_succ_self _)
    (to_tensor_isConv_aux (sizeOf X + 1) use_cuda X (Nat.lt_succ_self _) Y h)

def tconvX : PyVal :=
  .pydict [("a", .pylist [.pyscalar 1, .npArray [2, 3]]),
           ("b", .pytuple [.tensor [4] false]),
           ("c", .pyvar 7)]

def tconvY : PyVal :=
  .pydict [("a", .pylist [.tensor [1] true, .tensor [2, 3] true]),
           ("b", .pylist [.tensor [4] true]),
           ("c", .pyvar 7)]

theorem C8_to_tensor_idempotent_witness :
    to_tensor true tconvX = .ok tconvY ∧ to_tensor true tconvY = .ok tconvY := by
  have h1 : to_tensor true tconvX = .ok tconvY := by
    simp [tconvX, tconvY, to_tensor, to_tensorList, to_tensorEntries]
  exact ⟨h1, C8_to_tensor_idempotent true tconvX tconvY h1⟩
